import Mathlib

/-!
Shallow embedding of `src/transactions.rs` from the `exonum-btc-anchoring`
repository: the anchoring-transaction data model, payload codec, classifier,
builder and finalizer.  Machine integers (`u8`, `u32`, `u64`) are modelled as
`Nat` with explicit `% 2 ^ 64` where overflow matters; byte strings are
`List Nat` whose elements stand for bytes; fallible or panicking code returns
`Option` (with `none` standing for a Rust panic where noted).
-/

namespace BtcAnchoring

/-- U64 is the modulus of the `u64` arithmetic used by the builder. -/
def U64 : Nat := 2 ^ 64

/-- Little-endian bytes of a `u64`, as written by `LittleEndian::write_u64`
into `data[2..10]` in `create_anchoring_transaction`. -/
def le64 (h : Nat) : List Nat :=
  [h % 256, h / 256 % 256, h / 256 ^ 2 % 256, h / 256 ^ 3 % 256,
   h / 256 ^ 4 % 256, h / 256 ^ 5 % 256, h / 256 ^ 6 % 256, h / 256 ^ 7 % 256]

/-- Little-endian read of a byte list, as done by `LittleEndian::read_u64`
on `bytes[2..10]` in `find_payload`. -/
def readLE : List Nat → Nat
  | [] => 0
  | b :: rest => b + 256 * readLE rest

/-- Instr is one decoded script instruction, mirroring
`bitcoin::blockdata::script::Instruction`: a data push, a plain opcode, or a
parse error produced by a truncated push. -/
inductive Instr where
  | pushBytes (bytes : List Nat) : Instr
  | op (code : Nat) : Instr
  | err : Instr
  deriving DecidableEq, Repr

/-- Fuel-indexed script-instruction scanner, mirroring the iterator
`Script::into_iter` of the `bitcoin` crate as used by `find_payload` and
`FundingTx::find_out`: opcodes 0–75 push that many following bytes,
76/77/78 are PUSHDATA1/2/4 with a little-endian length, anything else is a
plain opcode; a truncated push yields a single `err` and stops.  The fuel is
always instantiated with the byte count, which bounds the instruction count,
so the `fuel = 0` branch is unreachable in `scriptInstructions`. -/
def parseAux : Nat → List Nat → List Instr
  | _, [] => []
  | 0, _ :: _ => []
  | fuel + 1, b :: rest =>
    if b ≤ 75 then
      if rest.length < b then [.err]
      else .pushBytes (rest.take b) :: parseAux fuel (rest.drop b)
    else if b = 76 then
      match rest with
      | [] => [.err]
      | n :: rest2 =>
        if rest2.length < n then [.err]
        else .pushBytes (rest2.take n) :: parseAux fuel (rest2.drop n)
    else if b = 77 then
      match rest with
      | n0 :: n1 :: rest2 =>
        if rest2.length < n0 + 256 * n1 then [.err]
        else .pushBytes (rest2.take (n0 + 256 * n1)) ::
          parseAux fuel (rest2.drop (n0 + 256 * n1))
      | _ => [.err]
    else if b = 78 then
      match rest with
      | n0 :: n1 :: n2 :: n3 :: rest2 =>
        if rest2.length < n0 + 256 * n1 + 65536 * n2 + 16777216 * n3 then [.err]
        else .pushBytes (rest2.take (n0 + 256 * n1 + 65536 * n2 + 16777216 * n3)) ::
          parseAux fuel (rest2.drop (n0 + 256 * n1 + 65536 * n2 + 16777216 * n3))
      | _ => [.err]
    else .op b :: parseAux fuel rest

/-- Instructions of a script given as raw bytes. -/
def scriptInstructions (s : List Nat) : List Instr :=
  parseAux s.length s

/-- Data-push operands of an instruction list, mirroring the
`filter_map(|instruction| if let Instruction::PushBytes(bytes) = ...)`
pattern used in `find_payload` and `AnchoringTx::output_address`. -/
def pushOperands (instrs : List Instr) : List (List Nat) :=
  instrs.filterMap fun i =>
    match i with
    | .pushBytes bytes => some bytes
    | _ => none

/-- Byte encoding of a data push emitted by `Builder::push_slice` of the
`bitcoin` crate: a direct push opcode for fewer than 76 bytes, otherwise
PUSHDATA1/2/4 with a little-endian length.  (The source panics for data of
4 GiB or more; that branch is irrelevant here and left total.) -/
def pushSlice (data : List Nat) : List Nat :=
  if data.length < 76 then data.length :: data
  else if data.length < 256 then 76 :: data.length :: data
  else if data.length < 65536 then 77 :: data.length % 256 :: data.length / 256 :: data
  else 78 :: data.length % 256 :: data.length / 256 % 256 ::
    data.length / 65536 % 256 :: data.length / 16777216 % 256 :: data

/-- Script predicate `Script::is_p2sh` of the `bitcoin` crate, used by the
classifier: 23 bytes, OP_HASH160 (0xa9), a 20-byte push (0x14), OP_EQUAL
(0x87). -/
def isP2sh (s : List Nat) : Bool :=
  s.length = 23 && s[0]? = some 169 && s[1]? = some 20 && s[22]? = some 135

/-- TxIn mirrors `bitcoin::blockdata::transaction::TxIn`: previous
transaction hash, previous output index, unlocking script, sequence. -/
structure TxIn where
  prev_hash : List Nat
  prev_index : Nat
  script_sig : List Nat
  sequence : Nat
  deriving DecidableEq, Repr

/-- TxOut mirrors `bitcoin::blockdata::transaction::TxOut`: value in
satoshi and locking script. -/
structure TxOut where
  value : Nat
  script_pubkey : List Nat
  deriving DecidableEq, Repr

/-- RawBitcoinTx mirrors `bitcoin::blockdata::transaction::Transaction`
(the `RawBitcoinTx` alias of the source): version, lock time, inputs,
outputs, witness data. -/
structure RawBitcoinTx where
  version : Int
  lock_time : Nat
  input : List TxIn
  output : List TxOut
  witness : List (List (List Nat))
  deriving DecidableEq, Repr

/-- AnchoringTx wraps a raw transaction, mirroring
`pub struct AnchoringTx(pub RawBitcoinTx)`. -/
structure AnchoringTx where
  raw : RawBitcoinTx
  deriving DecidableEq, Repr

/-- FundingTx wraps a raw transaction, mirroring
`pub struct FundingTx(pub RawBitcoinTx)`. -/
structure FundingTx where
  raw : RawBitcoinTx
  deriving DecidableEq, Repr

/-- BitcoinTx wraps a raw transaction, mirroring
`pub struct BitcoinTx(pub RawBitcoinTx)`. -/
structure BitcoinTx where
  raw : RawBitcoinTx
  deriving DecidableEq, Repr

/-- TxKind mirrors `pub enum TxKind`. -/
inductive TxKind where
  | anchoring (tx : AnchoringTx) : TxKind
  | fundingTx (tx : FundingTx) : TxKind
  | other (tx : BitcoinTx) : TxKind
  deriving DecidableEq, Repr

/-- Payload extraction `find_payload`: look at output index 1
(`ANCHORING_TX_DATA_OUTPUT`), take the first data-push operand of its
locking script, and accept it exactly when it is 42 bytes long with byte 0
equal to 1; the height is read little-endian from bytes 2..10 and the block
hash is bytes 10..42. -/
def find_payload (tx : RawBitcoinTx) : Option (Nat × List Nat) :=
  ((tx.output[1]?).bind fun o =>
    (pushOperands (scriptInstructions o.script_pubkey)).head?).bind
    fun bytes =>
      if bytes.length = 42 ∧ bytes[0]? = some 1 then
        some (readLE ((bytes.drop 2).take 8), (bytes.drop 10).take 32)
      else none

/-- Classification `impl From<RawBitcoinTx> for TxKind`: a transaction with
a payload is Anchoring; otherwise the outputs are scanned and any output
with positive value and a pay-to-script-hash locking script makes it
Funding; otherwise it is Other. -/
def txKindOfRaw (tx : RawBitcoinTx) : TxKind :=
  if (find_payload tx).isSome then .anchoring ⟨tx⟩
  else if tx.output.any (fun out => decide (0 < out.value) && isP2sh out.script_pubkey) then
    .fundingTx ⟨tx⟩
  else .other ⟨tx⟩

/-- Locking script of a pay-to-script-hash address, as produced by
`Address::script_pubkey` of the `bitcoin` crate for `Type::ScriptHash`
(the only kind of address the builder is given): OP_HASH160 (0xa9), a push
of the 20-byte script hash, OP_EQUAL (0x87).  An address is modelled by its
script hash bytes, the only part the core consumes. -/
def addrScriptPubkey (addrHash : List Nat) : List Nat :=
  169 :: pushSlice addrHash ++ [135]

/-- Payload buffer built inside `create_anchoring_transaction`: 42 bytes,
byte 0 = 1 (version), byte 1 = 40 (data length), bytes 2..10 the height
little-endian, bytes 10..42 the block hash.  (The source fills a `[0u8; 42]`
array; for a 32-byte hash, as `exonum::crypto::Hash` always is, the result
equals this concatenation.) -/
def payloadData (block_height : Nat) (block_hash : List Nat) : List Nat :=
  1 :: 40 :: le64 block_height ++ block_hash

/-- Metadata script of the data output: `OP_RETURN` (0x6a) followed by one
push of the payload buffer, mirroring
`Builder::new().push_opcode(All::OP_RETURN).push_slice(data)`. -/
def metadataScript (block_height : Nat) (block_hash : List Nat) : List Nat :=
  106 :: pushSlice (payloadData block_height block_hash)

/-- Function `create_anchoring_transaction`: one input per `(tx, vout)`
pair, in order, with empty unlocking script and sequence `0xFFFFFFFF`;
exactly two outputs, output 0 paying `out_funds` to the address's locking
script and output 1 the zero-value metadata output.  The transaction id
function `bitcoin_hash` (double SHA-256 of the serialization) is out of
scope and passed as the parameter `bh`. -/
def create_anchoring_transaction (bh : RawBitcoinTx → List Nat)
    (addrHash : List Nat) (block_height : Nat) (block_hash : List Nat)
    (inputs : List (RawBitcoinTx × Nat)) (out_funds : Nat) : AnchoringTx :=
  ⟨{ version := 1
     lock_time := 0
     input := inputs.map fun p =>
       { prev_hash := bh p.1
         prev_index := p.2
         script_sig := []
         sequence := 4294967295 }
     output := [{ value := out_funds, script_pubkey := addrScriptPubkey addrHash },
                { value := 0, script_pubkey := metadataScript block_height block_hash }]
     witness := [] }⟩

/-- TransactionBuilder mirrors `pub struct TransactionBuilder`: input
references, optional destination address (modelled by its script hash),
optional fee, optional payload. -/
structure TransactionBuilder where
  inputs : List (RawBitcoinTx × Nat)
  output : Option (List Nat)
  fee : Option Nat
  payload : Option (Nat × List Nat)
  deriving DecidableEq, Repr

/-- Constructor `TransactionBuilder::with_prev_tx`. -/
def TransactionBuilder.with_prev_tx (prev_tx : RawBitcoinTx) (out : Nat) :
    TransactionBuilder :=
  { inputs := [(prev_tx, out)], output := none, payload := none, fee := none }

/-- Fluent call `TransactionBuilder::fee`. -/
def TransactionBuilder.withFee (b : TransactionBuilder) (fee : Nat) :
    TransactionBuilder :=
  { b with fee := some fee }

/-- Fluent call `TransactionBuilder::add_funds`. -/
def TransactionBuilder.add_funds (b : TransactionBuilder) (tx : RawBitcoinTx)
    (out : Nat) : TransactionBuilder :=
  { b with inputs := b.inputs ++ [(tx, out)] }

/-- Fluent call `TransactionBuilder::payload`. -/
def TransactionBuilder.withPayload (b : TransactionBuilder) (height : Nat)
    (hash : List Nat) : TransactionBuilder :=
  { b with payload := some (height, hash) }

/-- Fluent call `TransactionBuilder::send_to`. -/
def TransactionBuilder.send_to (b : TransactionBuilder) (addrHash : List Nat) :
    TransactionBuilder :=
  { b with output := some addrHash }

/-- Total input value computed at the start of `into_transaction`:
`self.inputs.iter().map(|&(ref tx, out)| tx.output[out as usize].value).sum()`.
Returns `none` when some referenced output index is out of bounds (the
source panics there); the sum of `u64` values is reduced modulo `2 ^ 64`
(release-profile wrapping; a debug build would panic on overflow instead —
in neither profile is an error value returned). -/
def totalFunds (inputs : List (RawBitcoinTx × Nat)) : Option Nat :=
  (inputs.mapM fun p => p.1.output[p.2]?).map
    fun outs => (outs.map TxOut.value).sum % U64

/-- Terminal call `TransactionBuilder::into_transaction`.  The source
returns a bare `AnchoringTx` — there is no error result in its type: a
missing address, fee or payload hits `expect`/`unwrap` and panics
(modelled by `none`), an out-of-bounds input reference panics inside the
total-funds sum (also `none`), and `total_funds - fee` is an unchecked
`u64` subtraction — it wraps modulo `2 ^ 64` in a release build (modelled
here) and panics in a debug build; in no case is a `PreconditionError`
value produced. -/
def into_transaction (bh : RawBitcoinTx → List Nat) (b : TransactionBuilder) :
    Option AnchoringTx :=
  (totalFunds b.inputs).bind fun total =>
  b.output.bind fun addrHash =>
  b.fee.bind fun fee =>
  b.payload.map fun p =>
    create_anchoring_transaction bh addrHash p.1 p.2 b.inputs
      ((total + U64 - fee % U64) % U64)

/-- Unlocking script assembled by `finalize_anchoring_transaction` for one
input: `OP_PUSHBYTES_0` (a literal zero byte), one push per signature in
the order given, then one push of the redeem script bytes. -/
def scriptSigFor (redeemBytes : List Nat) (sigs : List (List Nat)) : List Nat :=
  0 :: sigs.flatMap pushSlice ++ pushSlice redeemBytes

/-- Replacement of the unlocking script of input `idx`, mirroring
`anchoring_tx.0.input[out as usize].script_sig = ...`; `none` models the
index-out-of-bounds panic. -/
def setScriptSig (tx : RawBitcoinTx) (idx : Nat) (s : List Nat) :
    Option RawBitcoinTx :=
  if h : idx < tx.input.length then
    some { tx with input := tx.input.set idx { tx.input.get ⟨idx, h⟩ with script_sig := s } }
  else none

/-- Function `finalize_anchoring_transaction`: for every
`(inputIndex, signatureList)` entry of the signature map, overwrite that
input's unlocking script with `scriptSigFor`.  The `HashMap` of the source
is modelled as an association list (one entry per key, any iteration
order); `none` models the panic on an out-of-range input index. -/
def finalize_anchoring_transaction (tx : AnchoringTx) (redeemBytes : List Nat)
    (signatures : List (Nat × List (List Nat))) : Option AnchoringTx :=
  (signatures.foldl
    (fun acc e => acc.bind fun t => setScriptSig t e.1 (scriptSigFor redeemBytes e.2))
    (some tx.raw)).map AnchoringTx.mk

/-- Spec-side transcription (§4.2 decoding, step 1): "inspect output index 1;
extract its single data-push operand".  Stated separately from `find_payload`
so the source function can be compared against the spec's wording. -/
def specFirstPushOperand (tx : RawBitcoinTx) : Option (List Nat) :=
  (tx.output[1]?).bind fun o =>
    (pushOperands (scriptInstructions o.script_pubkey)).head?

/-- Spec-side transcription (§4.2 decoding, step 2): "require exactly 42
bytes with byte 0 == 1; on success return (height, hash); on any mismatch
... return no payload".  The height is the little-endian reading of bytes
2..10 and the hash is bytes 10..42 (§6 wire layout). -/
def specDecodePayload (tx : RawBitcoinTx) : Option (Nat × List Nat) :=
  match specFirstPushOperand tx with
  | none => none
  | some bytes =>
    if bytes.length = 42 then
      if bytes[0]? = some 1 then
        some (readLE ((bytes.drop 2).take 8), (bytes.drop 10).take 32)
      else none
    else none

/-- Transaction whose output 1 carries a single data push of `bytes` (and
whose output 0 is arbitrary): the generic carrier used to probe
`find_payload` with hand-made operands. -/
def mkDataTx (bytes : List Nat) : RawBitcoinTx :=
  { version := 1
    lock_time := 0
    input := []
    output := [{ value := 0, script_pubkey := [] },
               { value := 0, script_pubkey := pushSlice bytes }]
    witness := [] }

/-- Stand-in transaction id function used by the concrete witnesses (the
real double SHA-256 is out of scope, see `create_anchoring_transaction`). -/
def bh0 : RawBitcoinTx → List Nat := fun _ => List.replicate 32 0

/-- Concrete 32-byte block hash used by the witnesses. -/
def hash0 : List Nat := List.replicate 32 7

/-- Concrete 20-byte address hash used by the witnesses. -/
def addr0 : List Nat := List.replicate 20 5

/-- Concrete previous transaction with a single 5000-satoshi output. -/
def prevTx0 : RawBitcoinTx :=
  { version := 1, lock_time := 0, input := [],
    output := [{ value := 5000, script_pubkey := [] }], witness := [] }

/-- Fully populated builder: one input worth 5000, fee 1000, payload
(10, hash0), destination addr0. -/
def builder0 : TransactionBuilder :=
  (((TransactionBuilder.with_prev_tx prevTx0 0).withFee 1000).withPayload 10 hash0).send_to addr0

/-- Builder with destination and payload set but no fee. -/
def builderNoFee : TransactionBuilder :=
  ((TransactionBuilder.with_prev_tx prevTx0 0).withPayload 10 hash0).send_to addr0

/-- Builder whose fee 5001 exceeds the 5000 of its only input. -/
def builderBigFee : TransactionBuilder :=
  (((TransactionBuilder.with_prev_tx prevTx0 0).withFee 5001).withPayload 10 hash0).send_to addr0

/-- Concrete unsigned anchoring transaction with one input, used by the
finalize witnesses. -/
def atx0 : AnchoringTx :=
  create_anchoring_transaction bh0 addr0 10 hash0 [(prevTx0, 0)] 4000

/-- Concrete redeem-script bytes (139 bytes, the size of a 3-of-4
compressed multisig script). -/
def redeem0 : List Nat := List.replicate 139 9

/-- Concrete 71-byte signature blobs. -/
def sig0 : List Nat := List.replicate 71 3

/-- Second concrete signature blob. -/
def sig1 : List Nat := List.replicate 71 4

/-- Expected result of finalizing `atx0` with signatures `[sig0, sig1]` on
input 0: the same transaction with input 0's unlocking script filled in. -/
def atx0Fin : AnchoringTx :=
  ⟨{ atx0.raw with
      input := [{ prev_hash := bh0 prevTx0, prev_index := 0,
                  script_sig := scriptSigFor redeem0 [sig0, sig1],
                  sequence := 4294967295 }] }⟩

/-- Concrete payload-free transaction with one positive pay-to-script-hash
output, used by the classification witness. -/
def txFund0 : RawBitcoinTx :=
  { version := 1, lock_time := 0, input := [],
    output := [{ value := 10, script_pubkey := addrScriptPubkey addr0 }], witness := [] }

theorem le64_length (h : Nat) : (le64 h).length = 8 := rfl

theorem readLE_le64 (h : Nat) (hh : h < U64) : readLE (le64 h) = h := by
  have : U64 = 18446744073709551616 := by norm_num [U64]
  simp only [le64, readLE]
  norm_num
  omega

theorem parseAux_op (fuel b : Nat) (rest : List Nat) (h75 : 75 < b) (h76 : b ≠ 76)
    (h77 : b ≠ 77) (h78 : b ≠ 78) :
    parseAux (fuel + 1) (b :: rest) = .op b :: parseAux fuel rest := by
  simp [parseAux, Nat.not_le.2 h75, h76, h77, h78]

theorem parseAux_push (fuel b : Nat) (rest : List Nat) (hb : b ≤ 75)
    (hlen : b ≤ rest.length) :
    parseAux (fuel + 1) (b :: rest)
      = .pushBytes (rest.take b) :: parseAux fuel (rest.drop b) := by
  simp [parseAux, hb, Nat.not_lt.2 hlen]

theorem payloadData_length (h : Nat) (hsh : List Nat) (hlen : hsh.length = 32) :
    (payloadData h hsh).length = 42 := by
  simp [payloadData, le64, hlen]

theorem scriptInstructions_metadata (h : Nat) (hsh : List Nat) (hlen : hsh.length = 32) :
    scriptInstructions (metadataScript h hsh)
      = [.op 106, .pushBytes (payloadData h hsh)] := by
  have hdlen : (payloadData h hsh).length = 42 := payloadData_length h hsh hlen
  have hps : pushSlice (payloadData h hsh) = 42 :: payloadData h hsh := by
    simp [pushSlice, hdlen]
  have hlen2 : (metadataScript h hsh).length = (payloadData h hsh).length + 1 + 1 := by
    simp [metadataScript, hps]
  rw [scriptInstructions, hlen2]
  rw [metadataScript, hps]
  rw [parseAux_op _ 106 _ (by norm_num) (by norm_num) (by norm_num) (by norm_num)]
  rw [parseAux_push _ 42 _ (by norm_num) (by omega)]
  rw [List.take_of_length_le (by omega), List.drop_eq_nil_of_le (by omega)]
  simp [parseAux]

theorem payloadData_drop_two (h : Nat) (hsh : List Nat) :
    ((payloadData h hsh).drop 2).take 8 = le64 h := rfl

theorem payloadData_drop_ten (h : Nat) (hsh : List Nat) (hlen : hsh.length = 32) :
    ((payloadData h hsh).drop 10).take 32 = hsh := by
  rw [show (payloadData h hsh).drop 10 = hsh from rfl]
  exact List.take_of_length_le (by omega)

theorem find_payload_create (bh : RawBitcoinTx → List Nat) (addrHash : List Nat)
    (h : Nat) (hsh : List Nat) (inputs : List (RawBitcoinTx × Nat)) (funds : Nat)
    (hlen : hsh.length = 32) (hh : h < U64) :
    find_payload (create_anchoring_transaction bh addrHash h hsh inputs funds).raw
      = some (h, hsh) := by
  have hdlen : (payloadData h hsh).length = 42 := payloadData_length h hsh hlen
  have h1 : (create_anchoring_transaction bh addrHash h hsh inputs funds).raw.output[1]?
      = some { value := 0, script_pubkey := metadataScript h hsh } := rfl
  have h2 : pushOperands (scriptInstructions (metadataScript h hsh))
      = [payloadData h hsh] := by
    rw [scriptInstructions_metadata h hsh hlen]; rfl
  rw [find_payload, h1]
  simp only [Option.some_bind]
  rw [h2]
  simp only [List.head?_cons, Option.some_bind]
  rw [if_pos (⟨hdlen, rfl⟩ :
    (payloadData h hsh).length = 42 ∧ (payloadData h hsh)[0]? = some 1)]
  rw [payloadData_drop_two, payloadData_drop_ten h hsh hlen, readLE_le64 h hh]

theorem setScriptSig_some (tx : RawBitcoinTx) (idx : Nat) (s : List Nat)
    (tx₁ : RawBitcoinTx) (h : setScriptSig tx idx s = some tx₁) :
    idx < tx.input.length
    ∧ tx₁.version = tx.version ∧ tx₁.lock_time = tx.lock_time
    ∧ tx₁.output = tx.output ∧ tx₁.witness = tx.witness
    ∧ tx₁.input.length = tx.input.length
    ∧ (∀ j, j ≠ idx → tx₁.input[j]? = tx.input[j]?)
    ∧ ∃ inp, tx.input[idx]? = some inp
        ∧ tx₁.input[idx]? = some { inp with script_sig := s } := by
  rw [setScriptSig] at h
  split at h
  case isFalse => exact absurd h (by simp)
  case isTrue hlt =>
    have htx : tx₁ = { tx with
        input := tx.input.set idx { tx.input.get ⟨idx, hlt⟩ with script_sig := s } } := by
      exact (Option.some_inj.mp h).symm
    subst htx
    refine ⟨hlt, rfl, rfl, rfl, rfl, List.length_set _ _ _, ?_, ?_⟩
    · intro j hj
      exact List.getElem?_set_ne (fun hc => hj hc.symm)
    · refine ⟨tx.input.get ⟨idx, hlt⟩, ?_, ?_⟩
      · rw [List.getElem?_eq_getElem hlt]; rfl
      · exact List.getElem?_set_eq_of_lt _ hlt

theorem finFoldStep (redeemBytes : List Nat) (sigs : List (Nat × List (List Nat)))
    (acc : Option RawBitcoinTx) (e : Nat × List (List Nat)) :
    (e :: sigs).foldl
      (fun acc e => acc.bind fun t => setScriptSig t e.1 (scriptSigFor redeemBytes e.2)) acc
    = sigs.foldl
        (fun acc e => acc.bind fun t => setScriptSig t e.1 (scriptSigFor redeemBytes e.2))
        (acc.bind fun t => setScriptSig t e.1 (scriptSigFor redeemBytes e.2)) := rfl

theorem finFold_none (redeemBytes : List Nat) (sigs : List (Nat × List (List Nat))) :
    sigs.foldl
      (fun acc e => acc.bind fun t => setScriptSig t e.1 (scriptSigFor redeemBytes e.2))
      none = none := by
  induction sigs with
  | nil => rfl
  | cons e rest ih => simpa using ih

theorem finFold_frame (redeemBytes : List Nat) :
    ∀ (sigs : List (Nat × List (List Nat))) (tx tx' : RawBitcoinTx),
      sigs.foldl
        (fun acc e => acc.bind fun t => setScriptSig t e.1 (scriptSigFor redeemBytes e.2))
        (some tx) = some tx' →
      tx'.version = tx.version ∧ tx'.lock_time = tx.lock_time
      ∧ tx'.output = tx.output ∧ tx'.witness = tx.witness
      ∧ tx'.input.length = tx.input.length
      ∧ (∀ i : Nat, (tx'.input[i]?).map TxIn.prev_hash = (tx.input[i]?).map TxIn.prev_hash
          ∧ (tx'.input[i]?).map TxIn.prev_index = (tx.input[i]?).map TxIn.prev_index
          ∧ (tx'.input[i]?).map TxIn.sequence = (tx.input[i]?).map TxIn.sequence)
      ∧ (∀ i : Nat, i ∉ sigs.map Prod.fst → tx'.input[i]? = tx.input[i]?) := by
  intro sigs
  induction sigs with
  | nil =>
    intro tx tx' hres
    obtain rfl : tx = tx' := Option.some_inj.mp hres
    exact ⟨rfl, rfl, rfl, rfl, rfl, fun i => ⟨rfl, rfl, rfl⟩, fun i _ => rfl⟩
  | cons e rest ih =>
    intro tx tx' hres
    rw [finFoldStep, Option.some_bind] at hres
    cases h1 : setScriptSig tx e.1 (scriptSigFor redeemBytes e.2) with
    | none => rw [h1, finFold_none] at hres; exact absurd hres (by simp)
    | some tx₁ =>
      rw [h1] at hres
      obtain ⟨hlt, hv, hl, ho, hw, hlen, hne, inp, hinp, hinp'⟩ :=
        setScriptSig_some tx e.1 (scriptSigFor redeemBytes e.2) tx₁ h1
      obtain ⟨hv', hl', ho', hw', hlen', hfields', hne'⟩ := ih tx₁ tx' hres
      refine ⟨hv'.trans hv, hl'.trans hl, ho'.trans ho, hw'.trans hw,
        hlen'.trans hlen, ?_, ?_⟩
      · intro i
        by_cases hi : i = e.1
        · subst hi
          rw [(hfields' e.1).1, (hfields' e.1).2.1, (hfields' e.1).2.2, hinp, hinp']
          exact ⟨rfl, rfl, rfl⟩
        · rw [(hfields' i).1, (hfields' i).2.1, (hfields' i).2.2, hne i hi]
          exact ⟨rfl, rfl, rfl⟩
      · intro i hi
        rw [List.map_cons, List.mem_cons] at hi
        push_neg at hi
        rw [hne' i hi.2, hne i hi.1]

theorem finFold_mem (redeemBytes : List Nat) :
    ∀ (sigs : List (Nat × List (List Nat))) (tx tx' : RawBitcoinTx),
      (sigs.map Prod.fst).Nodup →
      sigs.foldl
        (fun acc e => acc.bind fun t => setScriptSig t e.1 (scriptSigFor redeemBytes e.2))
        (some tx) = some tx' →
      ∀ k sl, (k, sl) ∈ sigs →
        ∃ inp, tx.input[k]? = some inp
          ∧ tx'.input[k]? = some { inp with script_sig := scriptSigFor redeemBytes sl } := by
  intro sigs
  induction sigs with
  | nil => intro tx tx' _ _ k sl hmem; exact absurd hmem (by simp)
  | cons e rest ih =>
    intro tx tx' hnd hres k sl hmem
    rw [finFoldStep, Option.some_bind] at hres
    cases h1 : setScriptSig tx e.1 (scriptSigFor redeemBytes e.2) with
    | none => rw [h1, finFold_none] at hres; exact absurd hres (by simp)
    | some tx₁ =>
      rw [h1] at hres
      obtain ⟨hlt, hv, hl, ho, hw, hlen, hne, inp, hinp, hinp'⟩ :=
        setScriptSig_some tx e.1 (scriptSigFor redeemBytes e.2) tx₁ h1
      rw [List.map_cons, List.nodup_cons] at hnd
      rcases List.mem_cons.mp hmem with heq | hmem'
      · have hk : k = e.1 := congrArg Prod.fst heq
        have hsl : sl = e.2 := congrArg Prod.snd heq
        rw [hk, hsl]
        have hnot : e.1 ∉ rest.map Prod.fst := hnd.1
        have hframe := finFold_frame redeemBytes rest tx₁ tx' hres
        exact ⟨inp, hinp, (hframe.2.2.2.2.2.2 e.1 hnot).trans hinp'⟩
      · have hkne : k ≠ e.1 := by
          intro hc
          exact hnd.1 (hc ▸ List.mem_map.mpr ⟨(k, sl), hmem', rfl⟩)
        obtain ⟨inp', hinp₁, hinp₂⟩ := ih tx₁ tx' hnd.2 hres k sl hmem'
        exact ⟨inp', (hne k hkne).symm.trans hinp₁, hinp₂⟩

theorem totalFunds_lt (inputs : List (RawBitcoinTx × Nat)) (total : Nat)
    (h : totalFunds inputs = some total) : total < U64 := by
  rw [totalFunds] at h
  cases h1 : inputs.mapM fun p => p.1.output[p.2]? with
  | none => rw [h1] at h; exact absurd h (by simp)
  | some outs =>
    rw [h1, Option.map_some'] at h
    obtain rfl : (outs.map TxOut.value).sum % U64 = total := Option.some_inj.mp h
    exact Nat.mod_lt _ (by norm_num [U64])

theorem txKindOfRaw_eq_anchoring (tx : RawBitcoinTx)
    (h : (find_payload tx).isSome) : txKindOfRaw tx = .anchoring ⟨tx⟩ := by
  simp [txKindOfRaw, h]

theorem scriptInstructions_single_push (bytes : List Nat) (h : bytes.length ≤ 75) :
    scriptInstructions (pushSlice bytes) = [.pushBytes bytes] := by
  have hps : pushSlice bytes = bytes.length :: bytes := by
    rw [pushSlice, if_pos (Nat.lt_succ_of_le h)]
  rw [scriptInstructions, hps]
  rw [show (bytes.length :: bytes).length = bytes.length + 1 from rfl]
  rw [parseAux_push bytes.length bytes.length bytes h le_rfl]
  rw [List.take_length bytes, List.drop_length bytes]
  simp [parseAux]

/-- C1: the claim says `build()` reports a `PreconditionError` when the
destination, fee or payload is unset or when the fee exceeds the total
input value.  The code does neither: `into_transaction` returns a bare
`AnchoringTx` (no error case exists in its type), panics via
`expect`/`unwrap` on an unset field (modelled by `none`), and performs an
unchecked `u64` subtraction for the fee, which wraps in a release build
(shown below: fee 5001 against 5000 of inputs yields output value
`2 ^ 64 - 1`) and panics in a debug build. -/
theorem c1_no_precondition_error :
    into_transaction bh0 builderNoFee = none
    ∧ (into_transaction bh0 builderBigFee).map
        (fun atx => (atx.raw.output.map TxOut.value)[0]?) = some (some (U64 - 1)) := by
  constructor
  · rfl
  · decide

/-- C2: classification is total, deterministic (it is a pure function) and
follows the documented order: a decodable payload forces `Anchoring`
regardless of the outputs; otherwise a positive-value pay-to-script-hash
output forces `Funding`; otherwise the result is `Other`; and every raw
transaction lands in exactly one of the three variants, wrapping the very
transaction that was classified. -/
theorem c2_classification_order (tx : RawBitcoinTx) :
    ((find_payload tx).isSome → txKindOfRaw tx = .anchoring ⟨tx⟩)
    ∧ (find_payload tx = none →
        (tx.output.any fun out => decide (0 < out.value) && isP2sh out.script_pubkey) = true →
        txKindOfRaw tx = .fundingTx ⟨tx⟩)
    ∧ (find_payload tx = none →
        (tx.output.any fun out => decide (0 < out.value) && isP2sh out.script_pubkey) = false →
        txKindOfRaw tx = .other ⟨tx⟩)
    ∧ (txKindOfRaw tx = .anchoring ⟨tx⟩ ∨ txKindOfRaw tx = .fundingTx ⟨tx⟩
        ∨ txKindOfRaw tx = .other ⟨tx⟩) := by
  refine ⟨fun h1 => txKindOfRaw_eq_anchoring tx h1, fun h1 h2 => ?_, fun h1 h2 => ?_, ?_⟩
  · simp [txKindOfRaw, h1, h2]
  · simp [txKindOfRaw, h1, h2]
  · rw [txKindOfRaw]
    by_cases h1 : (find_payload tx).isSome
    · simp [h1]
    · by_cases h2 : tx.output.any fun out => decide (0 < out.value) && isP2sh out.script_pubkey
      · simp [h1, h2]
      · simp [h1, h2]

/-- C2 witness: a concrete payload-free transaction paying 10 satoshi to a
script-hash output classifies as `Funding`. -/
theorem c2_classification_order_witness :
    txKindOfRaw txFund0 = .fundingTx ⟨txFund0⟩ :=
  (c2_classification_order txFund0).2.1 (by decide) (by decide)

/-- C3: with destination, fee and payload set, every input reference valid
and the fee not exceeding the total input value S, the built transaction
has exactly the two documented outputs — output 0 pays S minus fee to the
destination's locking script, output 1 is the zero-value payload output —
and one input per supplied reference, in insertion order, each with an
empty unlocking script and the all-ones sequence number. -/
theorem c3_build_shape (bh : RawBitcoinTx → List Nat) (b : TransactionBuilder)
    (addrHash : List Nat) (fee h : Nat) (hsh : List Nat) (total : Nat)
    (ha : b.output = some addrHash) (hf : b.fee = some fee)
    (hp : b.payload = some (h, hsh))
    (ht : totalFunds b.inputs = some total)
    (hfee : fee ≤ total) (hfee64 : fee < U64) :
    ∃ atx, into_transaction bh b = some atx
      ∧ atx.raw.output
          = [{ value := total - fee, script_pubkey := addrScriptPubkey addrHash },
             { value := 0, script_pubkey := metadataScript h hsh }]
      ∧ atx.raw.input = b.inputs.map fun p =>
          { prev_hash := bh p.1, prev_index := p.2, script_sig := [],
            sequence := 4294967295 } := by
  have hU : U64 = 18446744073709551616 := by norm_num [U64]
  have htot : total < U64 := totalFunds_lt b.inputs total ht
  have harith : (total + U64 - fee % U64) % U64 = total - fee := by
    rw [hU] at htot hfee64 ⊢
    omega
  refine ⟨create_anchoring_transaction bh addrHash h hsh b.inputs (total - fee),
    ?_, rfl, rfl⟩
  rw [into_transaction, ht, ha, hf, hp]
  simp only [Option.some_bind, Option.map_some']
  rw [harith]

/-- C3 witness: the fully populated concrete builder (one 5000-satoshi
input, fee 1000) builds with output value 4000. -/
theorem c3_build_shape_witness :
    ∃ atx, into_transaction bh0 builder0 = some atx
      ∧ atx.raw.output
          = [{ value := 4000, script_pubkey := addrScriptPubkey addr0 },
             { value := 0, script_pubkey := metadataScript 10 hash0 }]
      ∧ atx.raw.input = builder0.inputs.map fun p =>
          { prev_hash := bh0 p.1, prev_index := p.2, script_sig := [],
            sequence := 4294967295 } :=
  c3_build_shape bh0 builder0 addr0 1000 10 hash0 5000 rfl rfl rfl (by decide)
    (by norm_num) (by norm_num [U64])

/-- C4: a transaction produced by the terminal build step round-trips its
payload — `find_payload` recovers exactly the (height, hash) pair that was
set on the builder — and therefore always classifies as `Anchoring`. -/
theorem c4_payload_roundtrip (bh : RawBitcoinTx → List Nat)
    (b : TransactionBuilder) (atx : AnchoringTx) (h : Nat) (hsh : List Nat)
    (hb : into_transaction bh b = some atx)
    (hp : b.payload = some (h, hsh))
    (hh : h < U64) (hlen : hsh.length = 32) :
    find_payload atx.raw = some (h, hsh)
    ∧ txKindOfRaw atx.raw = .anchoring ⟨atx.raw⟩ := by
  rw [into_transaction] at hb
  cases h1 : totalFunds b.inputs with
  | none => rw [h1] at hb; exact absurd hb (by simp)
  | some total =>
    rw [h1, Option.some_bind] at hb
    cases h2 : b.output with
    | none => rw [h2] at hb; exact absurd hb (by simp)
    | some addrHash =>
      rw [h2, Option.some_bind] at hb
      cases h3 : b.fee with
      | none => rw [h3] at hb; exact absurd hb (by simp)
      | some fee =>
        rw [h3, Option.some_bind, hp, Option.map_some'] at hb
        obtain rfl : atx = create_anchoring_transaction bh addrHash h hsh b.inputs
            ((total + U64 - fee % U64) % U64) := (Option.some_inj.mp hb).symm
        have hfp := find_payload_create bh addrHash h hsh b.inputs
          ((total + U64 - fee % U64) % U64) hlen hh
        exact ⟨hfp, txKindOfRaw_eq_anchoring _ (by rw [hfp]; rfl)⟩

/-- C4 witness: the concrete builder's transaction decodes back to
(10, hash0). -/
theorem c4_payload_roundtrip_witness :
    find_payload (create_anchoring_transaction bh0 addr0 10 hash0
        builder0.inputs 4000).raw = some (10, hash0)
    ∧ txKindOfRaw (create_anchoring_transaction bh0 addr0 10 hash0
        builder0.inputs 4000).raw
      = .anchoring ⟨(create_anchoring_transaction bh0 addr0 10 hash0
        builder0.inputs 4000).raw⟩ :=
  c4_payload_roundtrip bh0 builder0
    (create_anchoring_transaction bh0 addr0 10 hash0 builder0.inputs 4000)
    10 hash0 (by decide) rfl (by norm_num [U64]) (by decide)

/-- C5: `find_payload` coincides with the specified decoding procedure:
inspect output index 1, take its data-push operand, demand exactly 42
bytes with byte 0 equal to 1, and return `none` (never an error) on any
mismatch — wrong length, wrong version byte, no data push, or absent
output. -/
theorem c5_decode_matches_spec (tx : RawBitcoinTx) :
    find_payload tx = specDecodePayload tx := by
  rw [find_payload, specDecodePayload, specFirstPushOperand]
  cases h : (tx.output[1]?).bind fun o =>
      (pushOperands (scriptInstructions o.script_pubkey)).head? with
  | none => rfl
  | some bytes =>
    simp only [Option.some_bind]
    by_cases h42 : bytes.length = 42
    · by_cases h0 : bytes[0]? = some 1
      · rw [if_pos ⟨h42, h0⟩, if_pos h42, if_pos h0]
      · rw [if_neg (fun hc => h0 hc.2), if_pos h42, if_neg h0]
    · rw [if_neg (fun hc => h42 hc.1), if_neg h42]

/-- C6: the payload buffer built by `create_anchoring_transaction` is
exactly 42 bytes — byte 0 is the version 1, byte 1 is the length 40,
bytes 2..10 are the height little-endian (reading them back little-endian
recovers the height), bytes 10..42 are the hash verbatim — and it sits in
a zero-value OP_RETURN (0x6a) data-carrier output at index 1. -/
theorem c6_payload_layout (bh : RawBitcoinTx → List Nat) (addrHash : List Nat)
    (h : Nat) (hsh : List Nat) (inputs : List (RawBitcoinTx × Nat)) (funds : Nat)
    (hlen : hsh.length = 32) (hh : h < U64) :
    (create_anchoring_transaction bh addrHash h hsh inputs funds).raw.output[1]?
        = some { value := 0, script_pubkey := 106 :: pushSlice (payloadData h hsh) }
    ∧ (payloadData h hsh).length = 42
    ∧ (payloadData h hsh)[0]? = some 1
    ∧ (payloadData h hsh)[1]? = some 40
    ∧ ((payloadData h hsh).drop 2).take 8 = le64 h
    ∧ readLE (((payloadData h hsh).drop 2).take 8) = h
    ∧ (payloadData h hsh).drop 10 = hsh :=
  ⟨rfl, payloadData_length h hsh hlen, rfl, rfl, payloadData_drop_two h hsh,
    by rw [payloadData_drop_two h hsh]; exact readLE_le64 h hh, rfl⟩

/-- C6 witness: the layout at height 10 with the concrete 32-byte hash. -/
theorem c6_payload_layout_witness :
    (payloadData 10 hash0).length = 42
    ∧ readLE (((payloadData 10 hash0).drop 2).take 8) = 10 :=
  ⟨(c6_payload_layout bh0 addr0 10 hash0 [] 0 (by decide) (by norm_num [U64])).2.1,
   (c6_payload_layout bh0 addr0 10 hash0 [] 0 (by decide) (by norm_num [U64])).2.2.2.2.2.1⟩

/-- C7: for every (inputIndex, signatureList) entry of the mapping handed
to the finalizer (one entry per index, as a `HashMap` guarantees), the
corresponding input's unlocking script becomes the zero placeholder byte,
then one push per signature in the supplied order, then one push of the
redeem script bytes; the signatures are spliced in verbatim, neither
reordered nor validated. -/
theorem c7_finalize_scripts (tx : AnchoringTx) (redeemBytes : List Nat)
    (signatures : List (Nat × List (List Nat))) (tx' : AnchoringTx)
    (hnd : (signatures.map Prod.fst).Nodup)
    (hres : finalize_anchoring_transaction tx redeemBytes signatures = some tx')
    (k : Nat) (sl : List (List Nat)) (hmem : (k, sl) ∈ signatures) :
    ∃ inp, tx.raw.input[k]? = some inp
      ∧ tx'.raw.input[k]? = some { inp with script_sig := scriptSigFor redeemBytes sl }
      ∧ scriptSigFor redeemBytes sl
          = 0 :: (sl.flatMap pushSlice ++ pushSlice redeemBytes) := by
  rw [finalize_anchoring_transaction] at hres
  cases hfold : signatures.foldl
      (fun acc e => acc.bind fun t => setScriptSig t e.1 (scriptSigFor redeemBytes e.2))
      (some tx.raw) with
  | none => rw [hfold] at hres; exact absurd hres (by simp)
  | some t' =>
    rw [hfold, Option.map_some'] at hres
    obtain rfl : tx' = ⟨t'⟩ := (Option.some_inj.mp hres).symm
    obtain ⟨inp, h1, h2⟩ := finFold_mem redeemBytes signatures tx.raw t' hnd hfold k sl hmem
    exact ⟨inp, h1, h2, rfl⟩

set_option maxRecDepth 10000 in
/-- C7 witness: finalizing the concrete one-input transaction with two
signatures on input 0 produces exactly the documented unlocking script. -/
theorem c7_finalize_scripts_witness :
    ∃ inp, atx0.raw.input[0]? = some inp
      ∧ atx0Fin.raw.input[0]?
          = some { inp with script_sig := scriptSigFor redeem0 [sig0, sig1] }
      ∧ scriptSigFor redeem0 [sig0, sig1]
          = 0 :: ([sig0, sig1].flatMap pushSlice ++ pushSlice redeem0) :=
  c7_finalize_scripts atx0 redeem0 [(0, [sig0, sig1])] atx0Fin
    (by decide) (by decide) 0 [sig0, sig1] (by decide)

/-- C8: the finalizer rewrites nothing but the unlocking scripts of the
mapped inputs: the version, lock time, outputs, witness data, input count,
and every input's previous-transaction reference, output index and
sequence number survive unchanged, an input whose index is not a key of
the mapping is untouched, and — for an unsigned transaction, whose
unlocking scripts are all empty — such an input still has an empty
unlocking script afterwards. -/
theorem c8_finalize_frame (tx : AnchoringTx) (redeemBytes : List Nat)
    (signatures : List (Nat × List (List Nat))) (tx' : AnchoringTx)
    (hres : finalize_anchoring_transaction tx redeemBytes signatures = some tx')
    (hunsigned : ∀ inp ∈ tx.raw.input, inp.script_sig = []) :
    tx'.raw.version = tx.raw.version ∧ tx'.raw.lock_time = tx.raw.lock_time
    ∧ tx'.raw.output = tx.raw.output ∧ tx'.raw.witness = tx.raw.witness
    ∧ tx'.raw.input.length = tx.raw.input.length
    ∧ (∀ i : Nat,
        (tx'.raw.input[i]?).map TxIn.prev_hash = (tx.raw.input[i]?).map TxIn.prev_hash
        ∧ (tx'.raw.input[i]?).map TxIn.prev_index = (tx.raw.input[i]?).map TxIn.prev_index
        ∧ (tx'.raw.input[i]?).map TxIn.sequence = (tx.raw.input[i]?).map TxIn.sequence)
    ∧ (∀ i : Nat, i ∉ signatures.map Prod.fst → tx'.raw.input[i]? = tx.raw.input[i]?)
    ∧ (∀ (i : Nat) (inp' : TxIn), i ∉ signatures.map Prod.fst →
        tx'.raw.input[i]? = some inp' → inp'.script_sig = []) := by
  rw [finalize_anchoring_transaction] at hres
  cases hfold : signatures.foldl
      (fun acc e => acc.bind fun t => setScriptSig t e.1 (scriptSigFor redeemBytes e.2))
      (some tx.raw) with
  | none => rw [hfold] at hres; exact absurd hres (by simp)
  | some t' =>
    rw [hfold, Option.map_some'] at hres
    obtain rfl : tx' = ⟨t'⟩ := (Option.some_inj.mp hres).symm
    obtain ⟨hv, hl, ho, hw, hlen, hfields, hframe⟩ :=
      finFold_frame redeemBytes signatures tx.raw t' hfold
    refine ⟨hv, hl, ho, hw, hlen, hfields, hframe, ?_⟩
    intro i inp' hi hsome
    have := hframe i hi
    rw [this] at hsome
    exact hunsigned inp' (List.getElem?_mem hsome)

/-- C8 witness: finalizing the concrete one-input transaction with an
empty signature mapping leaves everything unchanged. -/
theorem c8_finalize_frame_witness :
    atx0.raw.version = atx0.raw.version
    ∧ (∀ (i : Nat) (inp' : TxIn), i ∉ ([] : List (Nat × List (List Nat))).map Prod.fst →
        atx0.raw.input[i]? = some inp' → inp'.script_sig = []) := by
  obtain ⟨hv, _, _, _, _, _, _, hempty⟩ := c8_finalize_frame atx0 redeem0 [] atx0
    (by decide) (by decide)
  exact ⟨hv, hempty⟩

/-- C9: the finalizer is partial over the signature mapping: a mapping key
at or past the input count makes `finalize_anchoring_transaction` index
the input list out of bounds and abort (`none` models the Rust panic on
`input[out as usize]`) rather than return an error value — here a mapping
for input 5 of a one-input transaction. -/
theorem c9_finalize_out_of_range :
    atx0.raw.input.length = 1
    ∧ finalize_anchoring_transaction atx0 redeem0 [(5, [sig0])] = none := by decide

/-- C10: decoding never checks the length-header byte: any 42-byte operand
with version byte 1 decodes to `some`, even when byte 1 differs from the
40 that the encoder invariably writes — so decode accepts buffers the
encoder can never produce. -/
theorem c10_length_header_unchecked (bytes : List Nat)
    (h42 : bytes.length = 42) (h0 : bytes[0]? = some 1)
    (_h40 : bytes[1]? ≠ some 40) :
    (find_payload (mkDataTx bytes)).isSome
    ∧ find_payload (mkDataTx bytes)
        = some (readLE ((bytes.drop 2).take 8), (bytes.drop 10).take 32)
    ∧ ∀ (h : Nat) (hsh : List Nat), (payloadData h hsh)[1]? = some 40 := by
  have hsingle : scriptInstructions (pushSlice bytes) = [.pushBytes bytes] :=
    scriptInstructions_single_push bytes (by omega)
  have hfp : find_payload (mkDataTx bytes)
      = some (readLE ((bytes.drop 2).take 8), (bytes.drop 10).take 32) := by
    rw [find_payload]
    rw [show (mkDataTx bytes).output[1]?
        = some { value := 0, script_pubkey := pushSlice bytes } from rfl]
    simp only [Option.some_bind]
    rw [hsingle]
    rw [show pushOperands [Instr.pushBytes bytes] = [bytes] from rfl]
    simp only [List.head?_cons, Option.some_bind]
    rw [if_pos ⟨h42, h0⟩]
  exact ⟨by rw [hfp]; rfl, hfp, fun h hsh => rfl⟩

/-- C10 witness: a 42-byte operand with version byte 1 and length byte 0
(not 40) still decodes. -/
theorem c10_length_header_unchecked_witness :
    (find_payload (mkDataTx (1 :: 0 :: List.replicate 40 2))).isSome :=
  (c10_length_header_unchecked (1 :: 0 :: List.replicate 40 2)
    (by decide) (by decide) (by decide)).1

end BtcAnchoring
